import Mathlib

/-!
# Verification of the ECG heart-rate analysis pipeline

Shallow embedding of `ecg_analyzer.py`.  Conventions:

* Python/NumPy floats are modelled as exact rationals (`ℚ`).
* NaN (which the detector uses to mark lead-off samples) is modelled as `none`
  in `Option ℚ`; every comparison involving `none` is `false`, matching the
  IEEE semantics of comparisons with NaN that NumPy uses.
* Python exceptions are modelled with `Except String`.
* `np.std` returns the irrational `√variance`; every comparison the code makes
  against `mean + k·std` is embedded by the decidable `sqrtLe` test below,
  which is proved (in `sqrtLe_iff_real`) to decide exactly `k·√v ≤ t`.
-/

/- Batteries marks the `Rat` field operations `@[irreducible]`; concrete
evaluation of the embedded pipeline (witnesses and counterexamples) needs the
elaborator to unfold them, so restore their ordinary reducibility for this
file. -/
attribute [local semireducible] Rat.mul Rat.add Rat.sub Rat.inv Rat.ofScientific

/-- Python `int()` applied to a real number: truncation toward zero. -/
def pyInt (q : ℚ) : ℤ := if 0 ≤ q then ⌊q⌋ else ⌈q⌉

/-- Model of `np.mean` of a list of rationals: `sum / len` (the callers below never
apply it to an empty list, where NumPy would produce NaN). -/
def npMean (xs : List ℚ) : ℚ := xs.sum / xs.length

/-- Model of `np.std(xs)^2`, the population variance (`ddof = 0`). -/
def npVar (xs : List ℚ) : ℚ :=
  let m := npMean xs
  npMean (xs.map (fun x => (x - m) ^ 2))

/-- Decides `k * √v ≤ t` over the rationals (for `v ≥ 0`) without computing
the irrational square root; this is how all `mean + k·std` thresholds of
`detect_r_peaks` are embedded.  `sqrtLe_iff_real` proves the encoding. -/
def sqrtLe (k v t : ℚ) : Bool :=
  if 0 ≤ k then 0 ≤ t ∧ k ^ 2 * v ≤ t ^ 2 else 0 ≤ t ∨ t ^ 2 ≤ k ^ 2 * v

/-- Model of `np.diff` on an array of sample indices. -/
def npDiffNat (xs : List ℕ) : List ℤ :=
  List.zipWith (fun (a b : ℕ) => (b : ℤ) - (a : ℤ)) xs xs.tail

/-- Model of `np.diff` on an array of rationals. -/
def npDiffQ (xs : List ℚ) : List ℚ := List.zipWith (fun a b => b - a) xs xs.tail

/-- NumPy boolean-mask indexing `xs[mask]` (every use below has
`mask.length = xs.length`). -/
def maskFilter {α : Type} : List α → List Bool → List α
  | x :: xs, b :: bs => if b then x :: maskFilter xs bs else maskFilter xs bs
  | _, _ => []

/-! ## Heart-rate estimator (`calculate_heart_rate`, lines 111-163) -/

/-- RR intervals: `np.diff(peaks) / sampling_rate` (line 135). -/
def rrIntervals (peaks : List ℕ) (fs : ℚ) : List ℚ :=
  (npDiffNat peaks).map (fun (d : ℤ) => (d : ℚ) / fs)

/-- One entry of `interval_changes <= 0.5` (lines 144-146):
`np.abs(np.diff(rr))/rr[:-1] ≤ 0.5`.  When `r0 = 0` NumPy's division yields
inf/NaN, and the comparison with `0.5` is false, hence the special case. -/
def changeSmall (r0 r1 : ℚ) : Bool :=
  if r0 = 0 then false else |r1 - r0| / r0 ≤ 1 / 2

/-- Model of `(rr_intervals >= 0.33) & (rr_intervals <= 1.5)` (line 139). -/
def baseValidMask (rr : List ℚ) : List Bool :=
  rr.map (fun r => 33 / 100 ≤ r ∧ r ≤ 3 / 2)

/-- Model of `valid_intervals`, after `valid_intervals[1:] &= (interval_changes <= 0.5)`
(lines 139-146); the sudden-change filter runs only when `len(rr) > 2`. -/
def validIntervalMask (rr : List ℚ) : List Bool :=
  let base := baseValidMask rr
  if 2 < rr.length then
    match base with
    | [] => []
    | b0 :: rest => b0 :: List.zipWith (fun b c => b && c) rest (List.zipWith changeSmall rr rr.tail)
  else base

/-- Model of `rr_intervals[valid_intervals]` (line 148). -/
def filteredRR (peaks : List ℕ) (fs : ℚ) : List ℚ :=
  maskFilter (rrIntervals peaks fs) (validIntervalMask (rrIntervals peaks fs))

/-- Model of `peaks[1:][valid_intervals]` (line 149). -/
def filteredPeaks (peaks : List ℕ) (fs : ℚ) : List ℕ :=
  maskFilter (peaks.drop 1) (validIntervalMask (rrIntervals peaks fs))

/-- Model of `np.convolve(xs, np.ones(3)/3, mode='valid')` (line 160). -/
def smooth3 : List ℚ → List ℚ
  | a :: b :: c :: rest => (a + b + c) / 3 :: smooth3 (b :: c :: rest)
  | _ => []

/-- The instantaneous-rate series `60 / rr` before smoothing, together with the
early returns of lines 131-132 and 151-152. -/
def rawRates (peaks : List ℕ) (fs : ℚ) : List ℚ :=
  if peaks.length < 2 then []
  else if (filteredRR peaks fs).length < 2 then []
  else (filteredRR peaks fs).map (fun r => 60 / r)

/-- Model of `valid_peaks / sampling_rate` under the same early returns. -/
def rawTimes (peaks : List ℕ) (fs : ℚ) : List ℚ :=
  if peaks.length < 2 then []
  else if (filteredRR peaks fs).length < 2 then []
  else (filteredPeaks peaks fs).map (fun (p : ℕ) => (p : ℚ) / fs)

/-- Model of `calculate_heart_rate` (lines 111-163).  The `window_size` parameter of
the Python function is not read by its body and is omitted. -/
def calculate_heart_rate (peaks : List ℕ) (fs : ℚ) : List ℚ × List ℚ :=
  let hr := rawRates peaks fs
  let ts := rawTimes peaks fs
  if 3 < hr.length then (smooth3 hr, (ts.drop 1).dropLast) else (hr, ts)

/-- Model of `calculate_average_heart_rate` (lines 165-174). -/
def calculate_average_heart_rate (hr : List ℚ) : ℚ :=
  if hr.length = 0 then 0
  else
    let valid := hr.filter (fun r => 40 ≤ r ∧ r ≤ 200)
    if valid.length = 0 then 0 else npMean valid

/-! ## CSV loader (`load_ecg_from_csv`, lines 363-409) -/

/-- The record-reading loop of `load_ecg_from_csv` (lines 389-394).  A record
is modelled by the parse results of its two fields; `none` models a field on
which Python `float()` raises `ValueError`.  The loop parses the time field
(raising on failure), breaks once `time > duration`, then parses the value
field (raising on failure) and appends both. -/
def loadLoop (duration : ℚ) : List (Option ℚ × Option ℚ) → Except String (List ℚ × List ℚ)
  | [] => .ok ([], [])
  | (tOpt, vOpt) :: rest =>
    match tOpt with
    | none => .error "could not convert string to float"
    | some time =>
      if duration < time then .ok ([], [])
      else
        match vOpt with
        | none => .error "could not convert string to float"
        | some v =>
          match loadLoop duration rest with
          | .error e => .error e
          | .ok (ts, vs) => .ok (time :: ts, v :: vs)

/-- Model of `load_ecg_from_csv` (lines 363-409): run the reading loop; the summary
`print` then evaluates `t[-1]`, raising `IndexError` when nothing was read;
the sampling rate is estimated as `int(1 / np.mean(np.diff(t)))` — Python
`int()` truncation — when more than 1 sample was read, else the default 400
(`1 / 0.0` would raise `ZeroDivisionError` in Python, hence that branch). -/
def load_ecg_from_csv (rows : List (Option ℚ × Option ℚ)) (duration : ℚ) :
    Except String (List ℚ × List ℚ × ℤ) :=
  match loadLoop duration rows with
  | .error e => .error e
  | .ok (ts, vs) =>
    if ts.length = 0 then .error "IndexError: index -1 is out of bounds"
    else if 1 < ts.length then
      if npMean (npDiffQ ts) = 0 then .error "ZeroDivisionError: float division by zero"
      else .ok (ts, vs, pyInt (1 / npMean (npDiffQ ts)))
    else .ok (ts, vs, 400)

/-- A record whose two fields parse and whose time lies within the requested
duration: the loader consumes it without raising and without breaking. -/
def goodRow (duration : ℚ) (r : Option ℚ × Option ℚ) : Prop :=
  ∃ t v, r = (some t, some v) ∧ t ≤ duration

/-- The per-index acceptance test of the RR-interval filter: the interval must
lie in `[0.33 s, 1.5 s]`, and — only when there are more than 2 intervals —
an interval after the first must not differ from its immediate predecessor by
more than 50%. -/
def keepFn (rr : List ℚ) (i : ℕ) : Bool :=
  (decide (33 / 100 ≤ rr.getD i 0) && decide (rr.getD i 0 ≤ 3 / 2)) &&
  (decide (rr.length ≤ 2) || decide (i = 0) || changeSmall (rr.getD (i - 1) 0) (rr.getD i 0))

/-! ## Peak detector (`detect_r_peaks`, lines 8-109)

The smoothed signal is a list of `Option ℚ`, with `none` standing for NaN.
`signal.find_peaks` is embedded by `findPeaksFiltered` below, following the
scipy implementation: `_local_maxima_1d`, the height condition, then
`_select_by_peak_distance`, `_peak_prominences` (`wlen` unset) and
`_peak_widths` (`rel_height = 0.5`). -/

/-- IEEE `<`: any comparison with NaN (`none`) is false. -/
def oLt : Option ℚ → Option ℚ → Bool
  | some a, some b => a < b
  | _, _ => false

/-- IEEE `==`: any comparison with NaN (`none`) is false. -/
def oEq : Option ℚ → Option ℚ → Bool
  | some a, some b => a = b
  | _, _ => false

/-- Lead-off masking (lines 30-35): `valid_mask = ecg_signal > 0`, and the
non-valid samples become NaN in the working signal. -/
def workingSignal (sig : List ℚ) : List (Option ℚ) :=
  sig.map (fun v => if 0 < v then some v else none)

/-- Model of `window_size = int(0.02 * sampling_rate)`, bumped to odd (lines 38-40). -/
def smoothWindow (fs : ℚ) : ℕ :=
  let w := (pyInt (fs / 50)).toNat
  if w % 2 = 0 then w + 1 else w

/-- Model of `np.pad(xs, (p, p), mode='edge')` for a nonempty array. -/
def padEdge (xs : List (Option ℚ)) (p : ℕ) : List (Option ℚ) :=
  List.replicate p (xs.headD none) ++ xs ++ List.replicate p (xs.getLastD none)

/-- Model of `np.nanmean`: mean of the non-NaN entries, NaN when there are none. -/
def nanmeanOpt (xs : List (Option ℚ)) : Option ℚ :=
  let vs := xs.filterMap id
  if vs.length = 0 then none else some (npMean vs)

/-- The smoothed signal (lines 42-50): edge-pad by half a window, then a
moving `np.nanmean` window at every sample position. -/
def smoothedSignal (sig : List ℚ) (fs : ℚ) : List (Option ℚ) :=
  let w := smoothWindow fs
  let padded := padEdge (workingSignal sig) (w / 2)
  (List.range sig.length).map (fun i => nanmeanOpt ((padded.drop i).take w))

/-- Inner plateau scan of scipy `_local_maxima_1d`:
`while i_ahead < i_max and x[i_ahead] == x[i]: i_ahead += 1`. -/
def plateauEnd (x : List (Option ℚ)) (iMax : ℕ) (xi : Option ℚ) : ℕ → ℕ → ℕ
  | 0, k => k
  | fuel + 1, k =>
    if decide (k < iMax) && oEq (x.getD k none) xi then plateauEnd x iMax xi fuel (k + 1)
    else k

/-- Outer scan of scipy `_local_maxima_1d`: midpoints of samples (or plateaus)
strictly above both neighbours.  `fuel = x.length` always suffices because the
scan position strictly increases. -/
def localMaximaLoop (x : List (Option ℚ)) (iMax : ℕ) : ℕ → ℕ → List ℕ
  | 0, _ => []
  | fuel + 1, i =>
    if i < iMax then
      if oLt (x.getD (i - 1) none) (x.getD i none) then
        let iAhead := plateauEnd x iMax (x.getD i none) x.length (i + 1)
        if oLt (x.getD iAhead none) (x.getD i none) then
          (i + (iAhead - 1)) / 2 :: localMaximaLoop x iMax fuel (iAhead + 1)
        else localMaximaLoop x iMax fuel (i + 1)
      else localMaximaLoop x iMax fuel (i + 1)
    else []

/-- scipy `_local_maxima_1d`: the first and last sample cannot be maxima. -/
def localMaxima (x : List (Option ℚ)) : List ℕ :=
  localMaximaLoop x (x.length - 1) x.length 1

/-- Left marking scan of `_select_by_peak_distance`:
`while 0 <= k and peaks[j] - peaks[k] < distance: keep[k] = 0; k -= 1`.
(`peaks` is ascending at every call, so ℕ-subtraction matches Python.) -/
def markLeft (peaks : List ℕ) (d pj : ℕ) : ℕ → List Bool → List Bool
  | 0, keep => if pj - peaks.getD 0 0 < d then keep.set 0 false else keep
  | k + 1, keep =>
    if pj - peaks.getD (k + 1) 0 < d then markLeft peaks d pj k (keep.set (k + 1) false)
    else keep

/-- Right marking scan of `_select_by_peak_distance`:
`while k < peaks_size and peaks[k] - peaks[j] < distance: keep[k] = 0; k += 1`. -/
def markRight (peaks : List ℕ) (d pj n : ℕ) : ℕ → ℕ → List Bool → List Bool
  | 0, _, keep => keep
  | fuel + 1, k, keep =>
    if decide (k < n) && decide (peaks.getD k 0 - pj < d) then
      markRight peaks d pj n fuel (k + 1) (keep.set k false)
    else keep

/-- Main loop of `_select_by_peak_distance`: visit positions in the given
order; a position still kept removes every neighbour closer than `d`. -/
def selectLoop (peaks : List ℕ) (d : ℕ) : List ℕ → List Bool → List Bool
  | [], keep => keep
  | j :: rest, keep =>
    if keep.getD j false then
      let keep1 :=
        match j with
        | 0 => keep
        | j' + 1 => markLeft peaks d (peaks.getD j 0) j' keep
      let keep2 := markRight peaks d (peaks.getD j 0) peaks.length peaks.length (j + 1) keep1
      selectLoop peaks d rest keep2
    else selectLoop peaks d rest keep

/-- scipy `_select_by_peak_distance`: peaks are visited in decreasing priority
order (`np.argsort(priority)` traversed backwards; priorities are the smoothed
peak heights, which are distinct in every concrete run below, so the
unspecified tie order of NumPy introsort is immaterial). -/
def selectByPeakDistance (peaks : List ℕ) (priority : List ℚ) (d : ℕ) : List Bool :=
  let order :=
    (List.insertionSort (fun i j => priority.getD i 0 ≤ priority.getD j 0)
      (List.range peaks.length)).reverse
  selectLoop peaks d order (List.replicate peaks.length true)

/-- Left base scan of scipy `_peak_prominences`: walk left from the peak while
`x[i] <= x[peak]`, tracking the running minimum and its position; a NaN, a
strictly higher sample, or the border stops the scan. -/
def promLeftScan (x : List (Option ℚ)) (h : ℚ) : ℕ → ℚ → ℕ → ℚ × ℕ
  | 0, m, b =>
    (match x.getD 0 none with
     | some v => if v ≤ h then (if v < m then (v, 0) else (m, b)) else (m, b)
     | none => (m, b))
  | i + 1, m, b =>
    match x.getD (i + 1) none with
    | some v =>
      if v ≤ h then
        if v < m then promLeftScan x h i v (i + 1) else promLeftScan x h i m b
      else (m, b)
    | none => (m, b)

/-- Right base scan of scipy `_peak_prominences` (mirror image). -/
def promRightScan (x : List (Option ℚ)) (h : ℚ) (iMax : ℕ) : ℕ → ℕ → ℚ → ℕ → ℚ × ℕ
  | 0, _, m, b => (m, b)
  | fuel + 1, i, m, b =>
    if i ≤ iMax then
      match x.getD i none with
      | some v =>
        if v ≤ h then
          if v < m then promRightScan x h iMax fuel (i + 1) v i
          else promRightScan x h iMax fuel (i + 1) m b
        else (m, b)
      | none => (m, b)
    else (m, b)

/-- scipy `_peak_prominences` for one peak (`wlen` unset): the prominence and
the left/right bases. -/
def prominenceData (x : List (Option ℚ)) (p : ℕ) : ℚ × ℕ × ℕ :=
  let h := (x.getD p none).getD 0
  let lm := promLeftScan x h p h p
  let rm := promRightScan x h (x.length - 1) (x.length + 1) p h p
  (h - max lm.1 rm.1, lm.2, rm.2)

/-- Left crossing scan of scipy `_peak_widths`:
`while i_min < i and height < x[i]: i -= 1`. -/
def widthLeftScan (x : List (Option ℚ)) (h : ℚ) (iLo : ℕ) : ℕ → ℕ
  | 0 => 0
  | i + 1 =>
    if decide (iLo < i + 1) && oLt (some h) (x.getD (i + 1) none) then widthLeftScan x h iLo i
    else i + 1

/-- Right crossing scan of scipy `_peak_widths`:
`while i < i_max and height < x[i]: i += 1`. -/
def widthRightScan (x : List (Option ℚ)) (h : ℚ) (iHi : ℕ) : ℕ → ℕ → ℕ
  | 0, i => i
  | fuel + 1, i =>
    if decide (i < iHi) && oLt (some h) (x.getD i none) then widthRightScan x h iHi fuel (i + 1)
    else i

/-- scipy `_peak_widths` for one peak at `rel_height = 0.5`, with linear
interpolation of the crossing positions. -/
def peakWidth (x : List (Option ℚ)) (p : ℕ) : ℚ :=
  let pd := prominenceData x p
  let h := (x.getD p none).getD 0 - pd.1 / 2
  let li := widthLeftScan x h pd.2.1 p
  let leftIp : ℚ :=
    if oLt (x.getD li none) (some h) then
      (li : ℚ) + (h - ((x.getD li none).getD 0)) /
        (((x.getD (li + 1) none).getD 0) - ((x.getD li none).getD 0))
    else (li : ℚ)
  let ri := widthRightScan x h pd.2.2 (x.length + 1) p
  let rightIp : ℚ :=
    if oLt (x.getD ri none) (some h) then
      (ri : ℚ) - (h - ((x.getD ri none).getD 0)) /
        (((x.getD (ri - 1) none).getD 0) - ((x.getD ri none).getD 0))
    else (ri : ℚ)
  rightIp - leftIp

/-- scipy `signal.find_peaks` as called by `detect_r_peaks`: local maxima,
then the height, distance, prominence, and width conditions, in scipy's
order.  (A local maximum's value is never NaN, so the `getD 0` defaults in
the priority list are immaterial.) -/
def findPeaksFiltered (x : List (Option ℚ)) (heightOK : ℚ → Bool) (d : ℕ)
    (promOK : ℚ → Bool) (wmin wmax : ℚ) : List ℕ :=
  let maxima := localMaxima x
  let p1 := maxima.filter (fun p =>
    match x.getD p none with
    | some v => heightOK v
    | none => false)
  let keep := selectByPeakDistance p1 (p1.map (fun p => (x.getD p none).getD 0)) d
  let p2 := maskFilter p1 keep
  let p3 := p2.filter (fun p => promOK (prominenceData x p).1)
  p3.filter (fun p => decide (wmin ≤ peakWidth x p) && decide (peakWidth x p ≤ wmax))

/-- Model of the `np.nanargmax` accumulator loop: first position of the maximal non-NaN value. -/
def nanargmaxAux : List (Option ℚ) → ℕ → Option (ℚ × ℕ) → Option ℕ
  | [], _, acc => acc.map (fun mb => mb.2)
  | none :: rest, i, acc => nanargmaxAux rest (i + 1) acc
  | some v :: rest, i, acc =>
    match acc with
    | none => nanargmaxAux rest (i + 1) (some (v, i))
    | some (m, b) =>
      if m < v then nanargmaxAux rest (i + 1) (some (v, i))
      else nanargmaxAux rest (i + 1) (some (m, b))

/-- Model of `np.nanargmax` over a window; `none` when every entry is NaN (the Python
code guards with `np.all(np.isnan(window))`). -/
def nanargmaxList (xs : List (Option ℚ)) : Option ℕ := nanargmaxAux xs 0 none

/-- Peak refinement (lines 84-97): take the maximum of the original working
signal within ±`int(0.05*fs)` samples of each candidate; windows that are
entirely NaN contribute no peak. -/
def refinePeaks (working : List (Option ℚ)) (w : ℕ) (peaks : List ℕ) : List ℕ :=
  peaks.filterMap (fun p =>
    let start := p - w
    let stop := min working.length (p + w + 1)
    (nanargmaxList ((working.drop start).take (stop - start))).map (fun k => start + k))

/-- The amplitude outlier pass (lines 99-105): keep peaks whose working-signal
value exceeds `mean - std` of all peak values; `x > m - σ` is decided as
`¬(1·σ ≤ m - x)` via `sqrtLe`, and a NaN value fails the comparison. -/
def outlierFilter (working : List (Option ℚ)) (peaks : List ℕ) : List ℕ :=
  let vals := (peaks.map (fun p => working.getD p none)).filterMap id
  let m := npMean vals
  let v := npVar vals
  peaks.filter (fun p =>
    match working.getD p none with
    | some t => !(sqrtLe 1 v (m - t))
    | none => false)

/-- One `signal.find_peaks` call of `detect_r_peaks` (lines 64-70 and 75-81)
with height threshold `mean + k·std` and prominence threshold `std·p` over the
valid smoothed data, and width bounds `(0.02*fs, 0.12*fs)`. -/
def attemptCands (sig : List ℚ) (fs minDistance k p : ℚ) : List ℕ :=
  let smoothed := smoothedSignal sig fs
  let vd := smoothed.filterMap id
  let m := npMean vd
  let v := npVar vd
  findPeaksFiltered smoothed (fun t => sqrtLe k v (t - m)) ((pyInt (minDistance * fs)).toNat)
    (fun pr => sqrtLe p v pr) (fs / 50) (3 * fs / 25)

/-- Refinement plus outlier pass applied to the found candidates
(lines 83-105); with no candidates the empty array is returned. -/
def postDetect (sig : List ℚ) (fs : ℚ) (cands : List ℕ) : List ℕ :=
  if cands.length = 0 then []
  else
    let refined := refinePeaks (workingSignal sig) ((pyInt (fs / 20)).toNat) cands
    if 2 < refined.length then outlierFilter (workingSignal sig) refined else refined

/-- Model of `detect_r_peaks` (lines 8-109).  `np.pad(…, mode='edge')` raises on an
empty input and scipy raises when `distance < 1`; with no valid (non-lead-off)
data the detector returns an empty peak array; otherwise one detection attempt
at `mean + tf·σ`, one retry at `mean + 0.7·tf·σ` with halved prominence, then
refinement and the outlier pass. -/
def detect_r_peaks (sig : List ℚ) (fs : ℚ) (minDistance tf pf : ℚ) :
    Except String (List ℕ) :=
  if sig.length = 0 then .error "cannot extend empty axis 0 using mode edge"
  else if ((smoothedSignal sig fs).filterMap id).length = 0 then .ok []
  else if pyInt (minDistance * fs) < 1 then
    .error "distance must be greater or equal to 1"
  else
    let a1 := attemptCands sig fs minDistance tf pf
    let cands :=
      if a1.length = 0 then attemptCands sig fs minDistance (7/10 * tf) (pf / 2) else a1
    .ok (postDetect sig fs cands)

/-- Model of `analyze_ecg` (lines 176-220): lead-off mask (`ecg_signal == 0`),
detection with the default `min_distance = 0.4`, heart-rate series and
average. -/
def analyze_ecg (sig : List ℚ) (fs tf pf : ℚ) :
    Except String (List ℕ × List ℚ × List ℚ × ℚ × List Bool) :=
  (detect_r_peaks sig fs (2/5) tf pf).map (fun peaks =>
    let ht := calculate_heart_rate peaks fs
    (peaks, ht.1, ht.2, calculate_average_heart_rate ht.1,
      sig.map (fun x => decide (x = 0))))

/-- Concrete 61-sample signal at 100 Hz exhibiting refinement displacement:
two wide spikes at samples 12 and 52 (exactly `min_samples = 40` apart) are
the detected candidates, while taller one-sample spikes at 17 and 47 — too
narrow to win in the smoothed signal — capture the ±50 ms refinement windows,
moving the returned peaks to 17 and 47, only 30 samples apart. -/
def sigC1 : List ℚ :=
  List.replicate 11 10 ++ [30, 40, 30] ++ List.replicate 3 10 ++ [50] ++
  List.replicate 29 10 ++ [50] ++ List.replicate 3 10 ++ [30, 40, 30] ++
  List.replicate 7 10

/-! ## First theorems: C2, C3, C10 -/

/-- Claim C2: `calculate_average_heart_rate` returns the arithmetic mean of
exactly the entries lying in `[40, 200]` BPM, and `0.0` when the series is
empty or no entry lies in that range. -/
theorem c2_average_is_mean_of_plausible (hr : List ℚ) :
    calculate_average_heart_rate hr =
      if hr.filter (fun r => 40 ≤ r ∧ r ≤ 200) = [] then 0
      else (hr.filter (fun r => 40 ≤ r ∧ r ≤ 200)).sum /
        (hr.filter (fun r => 40 ≤ r ∧ r ≤ 200)).length := by
  unfold calculate_average_heart_rate npMean
  rcases hr with _ | ⟨a, tl⟩
  · simp
  · simp only [List.length_cons, Nat.succ_ne_zero, if_false]
    by_cases h : (a :: tl).filter (fun r => decide (40 ≤ r) && decide (r ≤ 200)) = []
    · simp [h, List.length_eq_zero]
    · simp [h, List.length_eq_zero]

/-- Claim C3: With fewer than 2 peaks, `calculate_heart_rate` returns two empty
arrays (without raising), and the average heart rate computed from that result
is the sentinel `0.0`. -/
theorem c3_fewer_than_two_peaks (peaks : List ℕ) (fs : ℚ)
    (hp : peaks.length < 2) (hfs : 0 < fs) :
    calculate_heart_rate peaks fs = ([], []) ∧
    calculate_average_heart_rate (calculate_heart_rate peaks fs).1 = 0 := by
  have hr : rawRates peaks fs = [] := by unfold rawRates; simp [hp]
  have ht : rawTimes peaks fs = [] := by unfold rawTimes; simp [hp]
  have h : calculate_heart_rate peaks fs = ([], []) := by
    unfold calculate_heart_rate
    simp [hr, ht]
  exact ⟨h, by rw [h]; rfl⟩

/-- Witness for C3 at the concrete input `peaks = [7]`, `fs = 250`. -/
theorem c3_fewer_than_two_peaks_witness :
    calculate_heart_rate [7] 250 = ([], []) ∧
    calculate_average_heart_rate (calculate_heart_rate [7] 250).1 = 0 :=
  c3_fewer_than_two_peaks [7] 250 (by decide) (by norm_num)

/-- Claim C10: Even with 2 or more peaks, `calculate_heart_rate` returns two
empty arrays whenever fewer than 2 RR intervals survive the plausibility
filtering, so the average heart rate is the sentinel `0.0` then as well. -/
theorem c10_empty_when_few_intervals_survive (peaks : List ℕ) (fs : ℚ)
    (hp : 2 ≤ peaks.length) (hs : (filteredRR peaks fs).length < 2) :
    calculate_heart_rate peaks fs = ([], []) ∧
    calculate_average_heart_rate (calculate_heart_rate peaks fs).1 = 0 := by
  have hp' : ¬ peaks.length < 2 := by omega
  have hr : rawRates peaks fs = [] := by unfold rawRates; simp [hp', hs]
  have ht : rawTimes peaks fs = [] := by unfold rawTimes; simp [hp', hs]
  have h : calculate_heart_rate peaks fs = ([], []) := by
    unfold calculate_heart_rate
    simp [hr, ht]
  exact ⟨h, by rw [h]; rfl⟩

/-- Witness for C10 at `peaks = [0, 1]`, `fs = 100`: the single RR interval
(10 ms) is implausible, so nothing survives. -/
theorem c10_empty_when_few_intervals_survive_witness :
    calculate_heart_rate [0, 1] 100 = ([], []) ∧
    calculate_average_heart_rate (calculate_heart_rate [0, 1] 100).1 = 0 :=
  c10_empty_when_few_intervals_survive [0, 1] 100 (by decide) (by decide)

/-! ## Structure of the RR-interval filter (C4, C5) -/

theorem maskFilter_length_congr {α β : Type} :
    ∀ (xs : List α) (ys : List β) (m : List Bool), xs.length = ys.length →
      (maskFilter xs m).length = (maskFilter ys m).length
  | [], [], _, _ => by cases ‹List Bool› <;> rfl
  | [], y :: ys, m, h => by simp at h
  | x :: xs, [], m, h => by simp at h
  | x :: xs, y :: ys, [], _ => rfl
  | x :: xs, y :: ys, b :: m, h => by
    have ih := maskFilter_length_congr xs ys m (by simpa using h)
    cases b <;> simp [maskFilter, ih]

theorem length_rrIntervals (peaks : List ℕ) (fs : ℚ) :
    (rrIntervals peaks fs).length = peaks.length - 1 := by
  unfold rrIntervals npDiffNat
  rw [List.length_map, List.length_zipWith, List.length_tail]
  omega

theorem length_smooth3 : ∀ xs : List ℚ, 3 ≤ xs.length → (smooth3 xs).length = xs.length - 2
  | a :: b :: c :: rest, _ => by
    rcases rest with _ | ⟨d, rest⟩
    · rfl
    · have ih := length_smooth3 (b :: c :: d :: rest) (by simp)
      simp only [smooth3, List.length_cons] at ih ⊢
      omega

theorem length_validIntervalMask (rr : List ℚ) :
    (validIntervalMask rr).length = rr.length := by
  unfold validIntervalMask baseValidMask
  by_cases h : 2 < rr.length
  · rcases rr with _ | ⟨r, rs⟩
    · simp at h
    · simp only [h, if_true, List.map_cons]
      simp only [List.length_cons, List.length_zipWith, List.length_map, List.length_tail]
      omega
  · simp [h]

theorem length_filteredRR_eq (peaks : List ℕ) (fs : ℚ) :
    (filteredRR peaks fs).length = (filteredPeaks peaks fs).length := by
  unfold filteredRR filteredPeaks
  exact maskFilter_length_congr _ _ _ (by simp [length_rrIntervals])

theorem length_rawRates_eq (peaks : List ℕ) (fs : ℚ) :
    (rawRates peaks fs).length = (rawTimes peaks fs).length := by
  unfold rawRates rawTimes
  by_cases h1 : peaks.length < 2
  · simp [h1]
  · by_cases h2 : (filteredRR peaks fs).length < 2
    · simp [h1, h2]
    · simp only [h1, if_false, h2, List.length_map]
      exact length_filteredRR_eq peaks fs

/-- Claim C5: `calculate_heart_rate` applies the 3-sample moving average only
when the pre-smoothed rate series is longer than the window (3); otherwise it
returns the unsmoothed series unchanged; when smoothing is applied the time
series is trimmed (`times[1:-1]`) to exactly the smoothed length, so the two
returned arrays always have equal length. -/
theorem c5_smoothing_only_when_longer (peaks : List ℕ) (fs : ℚ) :
    calculate_heart_rate peaks fs =
      (if 3 < (rawRates peaks fs).length
       then (smooth3 (rawRates peaks fs), ((rawTimes peaks fs).drop 1).dropLast)
       else (rawRates peaks fs, rawTimes peaks fs)) ∧
    (calculate_heart_rate peaks fs).1.length = (calculate_heart_rate peaks fs).2.length := by
  refine ⟨rfl, ?_⟩
  unfold calculate_heart_rate
  have hlen := length_rawRates_eq peaks fs
  by_cases h : 3 < (rawRates peaks fs).length
  · rw [if_pos h]
    have h3 : 3 ≤ (rawRates peaks fs).length := by omega
    have hs := length_smooth3 _ h3
    simp only [hs, List.length_dropLast, List.length_drop]
    omega
  · rw [if_neg h]
    exact hlen

theorem validIntervalMask_eq_range_map (rr : List ℚ) :
    validIntervalMask rr = (List.range rr.length).map (keepFn rr) := by
  apply List.ext_getElem
  · simp [length_validIntervalMask]
  · intro i hi hi'
    rw [length_validIntervalMask] at hi
    simp only [List.getElem_map, List.getElem_range]
    unfold validIntervalMask keepFn
    by_cases h : 2 < rr.length
    · rcases rr with _ | ⟨r0, rs⟩
      · simp at h
      · simp only [baseValidMask, List.map_cons, h, if_true]
        have hle : ¬ (r0 :: rs).length ≤ 2 := by omega
        rcases i with _ | j
        · simp [hle]
        · have hj : j < rs.length := by
            simp only [List.length_cons] at hi
            omega
          have hj2 : j < (r0 :: rs).length := by
            simp only [List.length_cons]
            omega
          have hle1 : ¬ rs.length ≤ 1 := by
            simp only [List.length_cons] at hle
            omega
          have e1 : rs[j]?.getD 0 = rs[j] := by
            rw [List.getElem?_eq_getElem hj]
            rfl
          have e0 : (r0 :: rs)[j]?.getD 0 = (r0 :: rs)[j] := by
            rw [List.getElem?_eq_getElem hj2]
            rfl
          simp only [List.getElem_cons_succ]
          rw [List.getElem_zipWith, List.getElem_zipWith]
          simp [List.getD_eq_getElem?_getD, Nat.add_sub_cancel, e1, e0, hle1, hle]
    · simp only [h, if_false, baseValidMask, List.getElem_map]
      rw [List.getD_eq_getElem rr 0 hi]
      have hle : rr.length ≤ 2 := Nat.le_of_not_lt h
      simp [hle]

/-- Boolean-mask indexing with a pointwise-defined mask is the index-filtered
subsequence. -/
theorem maskFilter_eq_filter_range {α : Type} (d : α) :
    ∀ (xs : List α) (keep : ℕ → Bool),
      maskFilter xs ((List.range xs.length).map keep) =
        ((List.range xs.length).filter keep).map (fun i => xs.getD i d)
  | [], _ => rfl
  | x :: xs, keep => by
    have ih := maskFilter_eq_filter_range d xs (fun i => keep (i + 1))
    simp only [List.length_cons, List.range_succ_eq_map, List.map_cons, List.map_map,
      List.filter_cons]
    have hcomp : keep ∘ Nat.succ = fun i => keep (i + 1) := rfl
    rw [List.filter_map, hcomp]
    by_cases hk : keep 0
    · simp only [hk, if_true, maskFilter, List.map_cons, List.map_map]
      rw [ih]
      simp [Function.comp_def]
    · simp only [hk, Bool.false_eq_true, if_false, maskFilter, List.map_map]
      rw [ih]
      simp [Function.comp_def]

/-- C4 counterexample input: peaks `[0, 40, 180]` at 100 Hz give RR intervals
`[0.4 s, 1.4 s]`; the second differs from its predecessor by 250%. -/
theorem c4_counterexample :
    rrIntervals [0, 40, 180] 100 = [2/5, 7/5] ∧
    1/2 < |(7/5 : ℚ) - 2/5| / (2/5) ∧
    (calculate_heart_rate [0, 40, 180] 100).1 = [150, 300/7] := by
  refine ⟨by decide, by decide, by decide⟩

/-- Amended claim C4: For peak arrays with at least 2 elements,
`calculate_heart_rate` discards every RR interval outside `[0.33 s, 1.5 s]`,
and — only when there are more than 2 RR intervals — every interval that
differs from its immediate predecessor by more than 50%; each discarded
interval's later peak is removed alongside it, and the surviving intervals
yield the rate series `60/RR` (when at least 2 survive). -/
theorem c4_amended_interval_filter (peaks : List ℕ) (fs : ℚ) (h : 2 ≤ peaks.length) :
    filteredRR peaks fs =
      ((List.range (rrIntervals peaks fs).length).filter (keepFn (rrIntervals peaks fs))).map
        (fun i => (rrIntervals peaks fs).getD i 0) ∧
    filteredPeaks peaks fs =
      ((List.range (rrIntervals peaks fs).length).filter (keepFn (rrIntervals peaks fs))).map
        (fun i => (peaks.drop 1).getD i 0) ∧
    rawRates peaks fs =
      (if (filteredRR peaks fs).length < 2 then []
       else (filteredRR peaks fs).map (fun r => 60 / r)) := by
  have hlen : (peaks.drop 1).length = (rrIntervals peaks fs).length := by
    simp [length_rrIntervals]
  refine ⟨?_, ?_, ?_⟩
  · unfold filteredRR
    rw [validIntervalMask_eq_range_map, maskFilter_eq_filter_range 0]
  · unfold filteredPeaks
    rw [validIntervalMask_eq_range_map, ← hlen, maskFilter_eq_filter_range 0, hlen]
  · unfold rawRates
    have h2 : ¬ peaks.length < 2 := by omega
    simp only [h2, if_false]

/-- Witness for the amended C4 at peaks `[0, 40, 90, 150]`, 100 Hz (three RR
intervals, so the predecessor-change filter is active and all pass). -/
theorem c4_amended_interval_filter_witness :
    filteredRR [0, 40, 90, 150] 100 =
      ((List.range (rrIntervals [0, 40, 90, 150] 100).length).filter
        (keepFn (rrIntervals [0, 40, 90, 150] 100))).map
        (fun i => (rrIntervals [0, 40, 90, 150] 100).getD i 0) ∧
    filteredPeaks [0, 40, 90, 150] 100 =
      ((List.range (rrIntervals [0, 40, 90, 150] 100).length).filter
        (keepFn (rrIntervals [0, 40, 90, 150] 100))).map
        (fun i => (([0, 40, 90, 150] : List ℕ).drop 1).getD i 0) ∧
    rawRates [0, 40, 90, 150] 100 =
      (if (filteredRR [0, 40, 90, 150] 100).length < 2 then []
       else (filteredRR [0, 40, 90, 150] 100).map (fun r => 60 / r)) :=
  c4_amended_interval_filter [0, 40, 90, 150] 100 (by decide)

/-! ## Loader and capture theorems: C7, C9 -/

/-- Counterexample to claim C7: For the loaded time column `[0, 5/1998]` the mean
sample interval is `5/1998 s`, so `1/mean(Δt) = 399.6`; the loader reports
`int(399.6) = 399`, while `round(399.6) = 400`. -/
theorem c7_counterexample :
    load_ecg_from_csv [(some 0, some 1), (some (5/1998), some 2)] 10 =
      .ok ([0, 5/1998], [1, 2], 399) ∧
    round ((1 : ℚ) / npMean (npDiffQ [0, 5/1998])) = 400 ∧ (399 : ℤ) ≠ 400 := by
  refine ⟨rfl, by decide, by decide⟩

/-- Amended claim C7: When no sampling rate is supplied, the loader derives the
sampling rate from the time column as the Python `int()` truncation of
`1 / mean(Δt)` (not `round`), for every loaded sequence with at least 2
samples. -/
theorem c7_amended_truncated_rate (rows : List (Option ℚ × Option ℚ)) (duration : ℚ)
    (ts vs : List ℚ) (r : ℤ)
    (h : load_ecg_from_csv rows duration = .ok (ts, vs, r)) (h2 : 2 ≤ ts.length) :
    r = pyInt (1 / npMean (npDiffQ ts)) := by
  unfold load_ecg_from_csv at h
  cases hl : loadLoop duration rows with
  | error e => rw [hl] at h; exact absurd h (by simp)
  | ok p =>
    obtain ⟨ts', vs'⟩ := p
    rw [hl] at h
    dsimp only at h
    by_cases he : ts'.length = 0
    · rw [if_pos he] at h
      exact absurd h (by simp)
    · rw [if_neg he] at h
      by_cases h1 : 1 < ts'.length
      · rw [if_pos h1] at h
        by_cases hz : npMean (npDiffQ ts') = 0
        · rw [if_pos hz] at h
          exact absurd h (by simp)
        · rw [if_neg hz] at h
          simp only [Except.ok.injEq, Prod.mk.injEq] at h
          obtain ⟨hts, hvs, hr⟩ := h
          subst hts
          exact hr.symm
      · rw [if_neg h1] at h
        simp only [Except.ok.injEq, Prod.mk.injEq] at h
        obtain ⟨hts, hvs, hr⟩ := h
        subst hts
        omega
    
/-- Witness for the amended C7: two samples 4 ms apart give rate `int(250)`. -/
theorem c7_amended_truncated_rate_witness :
    (250 : ℤ) = pyInt (1 / npMean (npDiffQ [0, 1/250])) :=
  c7_amended_truncated_rate [(some 0, some 5), (some (1/250), some 6)] 10
    [0, 1/250] [5, 6] 250 rfl (by decide)

/-- Counterexample to claim C9: A record with an unparsable time field makes the
loader raise `ValueError` (there is no try/except in `load_ecg_from_csv`): the
well-formed third record is not returned, so loading does not "skip and
continue". -/
theorem c9_counterexample :
    load_ecg_from_csv [(some 0, some 417), (none, some 512), (some (1/100), some 430)] 10 =
      .error "could not convert string to float" := rfl

/-- Amended claim C9: the CSV loader does not skip a record whose numeric
field fails to parse — `float()` raises `ValueError` at the first such record
(there is no try/except in `load_ecg_from_csv`), aborting the load, so none of
the records, the well-formed ones included, are returned for analysis. -/
theorem c9_amended_loader_raises
    (pre rest : List (Option ℚ × Option ℚ)) (w : Option ℚ) (duration : ℚ)
    (h : ∀ r ∈ pre, goodRow duration r) :
    loadLoop duration (pre ++ (none, w) :: rest) =
      .error "could not convert string to float" ∧
    load_ecg_from_csv (pre ++ (none, w) :: rest) duration =
      .error "could not convert string to float" := by
  have hloop : loadLoop duration (pre ++ (none, w) :: rest) =
      .error "could not convert string to float" := by
    induction pre with
    | nil => rfl
    | cons r pre ih =>
      obtain ⟨t, v, hrv, ht⟩ := h r (List.mem_cons_self r pre)
      subst hrv
      have hrec : loadLoop duration (pre.append ((none, w) :: rest)) =
          .error "could not convert string to float" :=
        ih (fun r hr => h r (List.mem_cons_of_mem _ hr))
      simp only [List.cons_append, loadLoop]
      rw [if_neg (not_lt.mpr ht), hrec]
  refine ⟨hloop, ?_⟩
  unfold load_ecg_from_csv
  rw [hloop]

/-- Witness for the amended C9 with one good record before the bad one. -/
theorem c9_amended_loader_raises_witness :
    loadLoop 10 ([(some 0, some 417)] ++ (none, some 512) :: []) =
      .error "could not convert string to float" ∧
    load_ecg_from_csv ([(some 0, some 417)] ++ (none, some 512) :: []) 10 =
      .error "could not convert string to float" :=
  c9_amended_loader_raises [(some 0, some 417)] [] (some 512) 10
    (fun r hr => by
      simp only [List.mem_singleton] at hr
      exact ⟨0, 417, hr, by norm_num⟩)

/-! ## The σ-threshold encoding, detector error handling and silent signals
(C1 counterexample, C6, C8) -/

/-- The decidable test `sqrtLe` decides exactly the real inequality
`k·√v ≤ t` that the Python code evaluates with `np.std`. -/
theorem sqrtLe_iff_real (k v t : ℚ) (hv : 0 ≤ v) :
    sqrtLe k v t = true ↔ (k : ℝ) * Real.sqrt (v : ℝ) ≤ (t : ℝ) := by
  have hv' : (0:ℝ) ≤ (v:ℝ) := by exact_mod_cast hv
  have hsq : Real.sqrt (v:ℝ) ^ 2 = (v:ℝ) := Real.sq_sqrt hv'
  have hsn : 0 ≤ Real.sqrt (v:ℝ) := Real.sqrt_nonneg _
  unfold sqrtLe
  by_cases hk : 0 ≤ k
  · rw [if_pos hk]
    have hk' : (0:ℝ) ≤ (k:ℝ) := by exact_mod_cast hk
    simp only [decide_eq_true_eq]
    constructor
    · rintro ⟨ht, h2⟩
      have ht' : (0:ℝ) ≤ (t:ℝ) := by exact_mod_cast ht
      have h2' : (k:ℝ)^2 * v ≤ (t:ℝ)^2 := by exact_mod_cast h2
      have hle := Real.sqrt_le_sqrt h2'
      rwa [Real.sqrt_mul (sq_nonneg _), Real.sqrt_sq hk', Real.sqrt_sq ht'] at hle
    · intro hle
      have hkv : 0 ≤ (k:ℝ) * Real.sqrt v := mul_nonneg hk' hsn
      have ht' : (0:ℝ) ≤ (t:ℝ) := le_trans hkv hle
      refine ⟨by exact_mod_cast ht', ?_⟩
      have h1 : ((k:ℝ) * Real.sqrt v)^2 ≤ (t:ℝ)^2 := by nlinarith
      have h2 : (k:ℝ)^2 * v ≤ (t:ℝ)^2 := by nlinarith
      exact_mod_cast h2
  · rw [if_neg hk]
    have hk' : (k:ℝ) < 0 := by exact_mod_cast not_le.mp hk
    simp only [decide_eq_true_eq]
    constructor
    · rintro (ht | h2)
      · have hkv : (k:ℝ) * Real.sqrt v ≤ 0 := mul_nonpos_of_nonpos_of_nonneg hk'.le hsn
        have ht' : (0:ℝ) ≤ (t:ℝ) := by exact_mod_cast ht
        linarith
      · have h2' : (t:ℝ)^2 ≤ (k:ℝ)^2 * v := by exact_mod_cast h2
        have hle := Real.sqrt_le_sqrt h2'
        rw [Real.sqrt_sq_eq_abs, Real.sqrt_mul (sq_nonneg _), Real.sqrt_sq_eq_abs] at hle
        rcases le_or_lt 0 (t:ℝ) with ht | ht
        · have hkv : (k:ℝ) * Real.sqrt v ≤ 0 := mul_nonpos_of_nonpos_of_nonneg hk'.le hsn
          linarith
        · rw [abs_of_neg ht, abs_of_neg hk'] at hle
          nlinarith
    · intro hle
      rcases le_or_lt 0 t with ht | ht
      · exact Or.inl (by exact_mod_cast ht)
      · refine Or.inr ?_
        have ht' : (t:ℝ) < 0 := by exact_mod_cast ht
        have h1 : 0 ≤ -(t:ℝ) := by linarith
        have h2 : -(t:ℝ) ≤ -((k:ℝ) * Real.sqrt v) := by linarith
        have h3 : (t:ℝ)^2 ≤ ((k:ℝ) * Real.sqrt v)^2 := by nlinarith
        have h4 : (t:ℝ)^2 ≤ (k:ℝ)^2 * v := by nlinarith
        exact_mod_cast h4

set_option maxRecDepth 100000 in
/-- Counterexample to claim C1: On `sigC1` at 100 Hz with the default parameters,
`detect_r_peaks` returns peaks 17 and 47, which are only 30 samples apart —
closer than the configured minimum inter-peak distance
`int(min_distance * sampling_rate) = 40`: the ±50 ms refinement pass moved
both candidates (12 and 52) toward the taller narrow spikes. -/
theorem c1_counterexample :
    detect_r_peaks sigC1 100 (2/5) (3/2) 1 = .ok [17, 47] ∧
    (pyInt ((2/5 : ℚ) * 100)).toNat = 40 ∧ 47 - 17 < 40 :=
  ⟨rfl, by decide, by decide⟩

/-- Claim C6: When the first `find_peaks` attempt (threshold `mean + k·σ`)
yields no candidates, `detect_r_peaks` retries exactly once with the
threshold factor reduced to `0.7·k` and the prominence factor halved; if the
retry also yields nothing, it returns the empty peak array instead of
raising. -/
theorem c6_single_retry_then_empty (sig : List ℚ) (fs tf pf : ℚ)
    (hne : ¬ sig.length = 0)
    (hvd : ¬ ((smoothedSignal sig fs).filterMap id).length = 0)
    (hd : ¬ pyInt ((2/5) * fs) < 1)
    (h1 : attemptCands sig fs (2/5) tf pf = []) :
    detect_r_peaks sig fs (2/5) tf pf =
      .ok (postDetect sig fs (attemptCands sig fs (2/5) (7/10 * tf) (pf / 2))) ∧
    (attemptCands sig fs (2/5) (7/10 * tf) (pf / 2) = [] →
      detect_r_peaks sig fs (2/5) tf pf = .ok []) := by
  have hmain : detect_r_peaks sig fs (2/5) tf pf =
      .ok (postDetect sig fs (attemptCands sig fs (2/5) (7/10 * tf) (pf / 2))) := by
    unfold detect_r_peaks
    rw [if_neg hne, if_neg hvd, if_neg hd]
    simp [h1]
  refine ⟨hmain, fun h2 => ?_⟩
  rw [hmain, h2]
  rfl

set_option maxRecDepth 100000 in
/-- Witness for C6 on a constant positive signal at 50 Hz: both attempts find
nothing, and the detector returns the empty peak array. -/
theorem c6_single_retry_then_empty_witness :
    detect_r_peaks [7, 7, 7, 7] 50 (2/5) (3/2) 1 =
      .ok (postDetect [7, 7, 7, 7] 50 (attemptCands [7, 7, 7, 7] 50 (2/5) (7/10 * (3/2)) (1 / 2))) ∧
    (attemptCands [7, 7, 7, 7] 50 (2/5) (7/10 * (3/2)) (1 / 2) = [] →
      detect_r_peaks [7, 7, 7, 7] 50 (2/5) (3/2) 1 = .ok []) :=
  c6_single_retry_then_empty [7, 7, 7, 7] 50 (3/2) 1 (by decide) (by decide) (by decide) rfl

/-! ## Silent (zero/constant) signals (C8) -/

theorem smoothWindow_pos (fs : ℚ) : 1 ≤ smoothWindow fs := by
  unfold smoothWindow
  by_cases h : ((pyInt (fs / 50)).toNat) % 2 = 0
  · simp only [h, if_true]
    omega
  · simp only [h, if_false]
    omega

theorem nanmeanOpt_of_all_none (xs : List (Option ℚ)) (h : ∀ y ∈ xs, y = none) :
    nanmeanOpt xs = none := by
  unfold nanmeanOpt
  have hx : xs.filterMap id = [] := by
    rw [List.filterMap_eq_nil_iff]
    intro a ha
    rw [h a ha]
    rfl
  simp [hx]

theorem padEdge_mem_of (xs : List (Option ℚ)) (p : ℕ) (P : Option ℚ → Prop)
    (hP : ∀ y ∈ xs, P y) (hd : P (xs.headD none)) (hl : P (xs.getLastD none)) :
    ∀ y ∈ padEdge xs p, P y := by
  intro y hy
  unfold padEdge at hy
  simp only [List.mem_append, List.mem_replicate] at hy
  rcases hy with (⟨-, rfl⟩ | hy) | ⟨-, rfl⟩
  · exact hd
  · exact hP y hy
  · exact hl

theorem smoothed_all_none (sig : List ℚ) (fs c : ℚ) (hc : c ≤ 0)
    (h : ∀ x ∈ sig, x = c) :
    ((smoothedSignal sig fs).filterMap id).length = 0 := by
  have hw : ∀ y ∈ workingSignal sig, y = none := by
    intro y hy
    unfold workingSignal at hy
    obtain ⟨x, hx, rfl⟩ := List.mem_map.mp hy
    rw [h x hx]
    simp [not_lt.mpr hc]
  have hh : (workingSignal sig).headD none = none := by
    cases hx : workingSignal sig with
    | nil => rfl
    | cons a l => exact hw a (hx ▸ List.mem_cons_self a l)
  have hl : (workingSignal sig).getLastD none = none := by
    cases hx : workingSignal sig with
    | nil => rfl
    | cons a l =>
      rw [List.getLastD_cons]
      exact hw _ (by rw [hx]; exact List.getLastD_mem_cons l a)
  have hp := padEdge_mem_of (workingSignal sig) (smoothWindow fs / 2) (fun y => y = none)
    hw hh hl
  have hs : ∀ y ∈ smoothedSignal sig fs, y = none := by
    intro y hy
    unfold smoothedSignal at hy
    obtain ⟨i, hi, rfl⟩ := List.mem_map.mp hy
    apply nanmeanOpt_of_all_none
    intro z hz
    exact hp z (List.mem_of_mem_drop (List.mem_of_mem_take hz))
  rw [List.length_eq_zero, List.filterMap_eq_nil_iff]
  intro a ha
  rw [hs a ha]
  rfl

theorem filterMap_id_const (c : ℚ) :
    ∀ xs : List (Option ℚ), (∀ y ∈ xs, y = some c) →
      xs.filterMap id = List.replicate xs.length c
  | [], _ => rfl
  | y :: ys, h => by
    have hy := h y (List.mem_cons_self y ys)
    subst hy
    simp only [List.filterMap_cons, id, List.length_cons, List.replicate_succ]
    rw [filterMap_id_const c ys (fun z hz => h z (List.mem_cons_of_mem _ hz))]

theorem nanmeanOpt_const (xs : List (Option ℚ)) (c : ℚ) (hne : ¬ xs.length = 0)
    (h : ∀ y ∈ xs, y = some c) : nanmeanOpt xs = some c := by
  unfold nanmeanOpt
  rw [filterMap_id_const c xs h]
  show (if (List.replicate xs.length c).length = 0 then none
    else some (npMean (List.replicate xs.length c))) = some c
  rw [List.length_replicate]
  rw [if_neg hne]
  unfold npMean
  rw [List.sum_replicate, List.length_replicate]
  have hn : ((xs.length : ℚ)) ≠ 0 := by
    exact_mod_cast hne
  rw [nsmul_eq_mul, mul_comm, mul_div_assoc, div_self hn, mul_one]

theorem smoothedSignal_const_pos (sig : List ℚ) (fs c : ℚ) (hc : 0 < c)
    (hne : sig ≠ []) (h : ∀ x ∈ sig, x = c) :
    smoothedSignal sig fs = List.replicate sig.length (some c) := by
  have hw : ∀ y ∈ workingSignal sig, y = some c := by
    intro y hy
    unfold workingSignal at hy
    obtain ⟨x, hx, rfl⟩ := List.mem_map.mp hy
    rw [h x hx]
    simp [hc]
  have hwlen : (workingSignal sig).length = sig.length := by
    unfold workingSignal
    exact List.length_map _ _
  have hwne : workingSignal sig ≠ [] := by
    intro hnil
    apply hne
    have hlen0 := congrArg List.length hnil
    rw [hwlen] at hlen0
    exact List.length_eq_zero.mp hlen0
  have hh : (workingSignal sig).headD none = some c := by
    cases hx : workingSignal sig with
    | nil => exact absurd hx hwne
    | cons a l => exact hw a (hx ▸ List.mem_cons_self a l)
  have hl : (workingSignal sig).getLastD none = some c := by
    cases hx : workingSignal sig with
    | nil => exact absurd hx hwne
    | cons a l =>
      rw [List.getLastD_cons]
      exact hw _ (by rw [hx]; exact List.getLastD_mem_cons l a)
  have hp := padEdge_mem_of (workingSignal sig) (smoothWindow fs / 2) (fun y => y = some c)
    hw hh hl
  have hplen : sig.length ≤ (padEdge (workingSignal sig) (smoothWindow fs / 2)).length := by
    unfold padEdge
    simp only [List.length_append, List.length_replicate]
    omega
  rw [List.eq_replicate_iff]
  constructor
  · unfold smoothedSignal
    simp
  · intro b hb
    unfold smoothedSignal at hb
    obtain ⟨i, hi, rfl⟩ := List.mem_map.mp hb
    rw [List.mem_range] at hi
    apply nanmeanOpt_const _ c
    · have h1 : 1 ≤ smoothWindow fs := smoothWindow_pos fs
      simp only [List.length_take, List.length_drop]
      omega
    · intro z hz
      exact hp z (List.mem_of_mem_drop (List.mem_of_mem_take hz))

theorem getD_replicate_opt (n' i : ℕ) (c : ℚ) :
    (List.replicate n' (some c)).getD i none = some c ∨
    (List.replicate n' (some c)).getD i none = none := by
  by_cases h : i < n'
  · left
    rw [List.getD_eq_getElem _ _ (by simpa using h)]
    simp
  · right
    rw [List.getD_eq_default]
    simpa using h

theorem localMaximaLoop_replicate (n' : ℕ) (c : ℚ) (iMax : ℕ) :
    ∀ (fuel i : ℕ), localMaximaLoop (List.replicate n' (some c)) iMax fuel i = [] := by
  intro fuel
  induction fuel with
  | zero => intro i; rfl
  | succ fuel ih =>
    intro i
    unfold localMaximaLoop
    by_cases h : i < iMax
    · rw [if_pos h]
      have hlt : oLt ((List.replicate n' (some c)).getD (i - 1) none)
          ((List.replicate n' (some c)).getD i none) = false := by
        rcases getD_replicate_opt n' (i - 1) c with h1 | h1 <;>
          rcases getD_replicate_opt n' i c with h2 | h2 <;>
          rw [h1, h2] <;> simp [oLt]
      rw [hlt]
      simp only [Bool.false_eq_true, if_false]
      exact ih (i + 1)
    · rw [if_neg h]

theorem attemptCands_const (sig : List ℚ) (fs c md k p : ℚ) (hc : 0 < c)
    (hne : sig ≠ []) (h : ∀ x ∈ sig, x = c) :
    attemptCands sig fs md k p = [] := by
  unfold attemptCands findPeaksFiltered localMaxima
  rw [smoothedSignal_const_pos sig fs c hc hne h]
  simp only [localMaximaLoop_replicate, List.filter_nil]
  rfl

theorem detect_const (sig : List ℚ) (fs tf pf c : ℚ)
    (hne : sig ≠ []) (hc : ∀ x ∈ sig, x = c)
    (hd : 0 < c → 1 ≤ pyInt (2/5 * fs)) :
    detect_r_peaks sig fs (2/5) tf pf = .ok [] := by
  have hlen : ¬ sig.length = 0 := by simpa [List.length_eq_zero] using hne
  unfold detect_r_peaks
  rw [if_neg hlen]
  rcases le_or_lt c 0 with h0 | h0
  · rw [if_pos (smoothed_all_none sig fs c h0 hc)]
  · have hvd : ¬ ((smoothedSignal sig fs).filterMap id).length = 0 := by
      rw [smoothedSignal_const_pos sig fs c h0 hne hc]
      rw [filterMap_id_const c _ (fun y hy => List.eq_of_mem_replicate hy)]
      simpa [← List.length_eq_zero] using hlen
    rw [if_neg hvd, if_neg (not_lt.mpr (hd h0))]
    rw [attemptCands_const sig fs c (2/5) tf pf h0 hne hc]
    rw [attemptCands_const sig fs c (2/5) (7/10 * tf) (pf / 2) h0 hne hc]
    rfl

/-- Counterexample to claim C8: A constant positive 3-sample signal at 1 Hz makes
the analysis raise (`scipy` rejects `distance = int(0.4 * 1) = 0 < 1`); it
does not return an empty peak set with average `0.0` for every entirely
constant signal. -/
theorem c8_counterexample :
    analyze_ecg [5, 5, 5] 1 (3/2) 1 = .error "distance must be greater or equal to 1" := rfl

/-- Amended claim C8: For every nonempty constant signal — entirely zero
(lead-off), entirely negative, or entirely positive with a sampling rate whose
minimum peak distance `int(0.4*fs)` is at least 1 sample — the analysis
returns an empty peak set, empty rate/time series, the sentinel average `0.0`,
and the lead-off mask, without raising and with no NaN in any output. -/
theorem c8_amended_silent_signal (sig : List ℚ) (c fs tf pf : ℚ) (hne : sig ≠ [])
    (hc : ∀ x ∈ sig, x = c) (hd : 0 < c → 1 ≤ pyInt (2/5 * fs)) :
    analyze_ecg sig fs tf pf = .ok ([], [], [], 0, sig.map (fun x => decide (x = 0))) := by
  unfold analyze_ecg
  rw [detect_const sig fs tf pf c hne hc hd]
  rfl

/-- Witness for the amended C8: the all-zero (entirely lead-off) 3-sample
signal at 1 Hz. -/
theorem c8_amended_silent_signal_witness :
    analyze_ecg [0, 0, 0] 1 (3/2) 1 = .ok ([], [], [], 0, [true, true, true]) :=
  c8_amended_silent_signal [0, 0, 0] 0 1 (3/2) 1 (by decide) (by decide) (by decide)

/-! ## Structural facts about the detector (toward the amended C1) -/

theorem plateauEnd_ge (x : List (Option ℚ)) (iMax : ℕ) (xi : Option ℚ) :
    ∀ (fuel k : ℕ), k ≤ plateauEnd x iMax xi fuel k
  | 0, k => Nat.le_refl k
  | fuel + 1, k => by
    unfold plateauEnd
    by_cases h : (decide (k < iMax) && oEq (x.getD k none) xi) = true
    · rw [if_pos h]
      exact Nat.le_trans (Nat.le_succ k) (plateauEnd_ge x iMax xi fuel (k + 1))
    · rw [if_neg h]

theorem plateauEnd_le (x : List (Option ℚ)) (iMax : ℕ) (xi : Option ℚ) :
    ∀ (fuel k : ℕ), k ≤ iMax → plateauEnd x iMax xi fuel k ≤ iMax
  | 0, k, hk => hk
  | fuel + 1, k, hk => by
    unfold plateauEnd
    by_cases h : (decide (k < iMax) && oEq (x.getD k none) xi) = true
    · rw [if_pos h]
      have hk' : k < iMax := by
        have := (Bool.and_eq_true _ _).mp h
        exact of_decide_eq_true this.1
      exact plateauEnd_le x iMax xi fuel (k + 1) hk'
    · rw [if_neg h]
      exact hk

theorem localMaximaLoop_sorted (x : List (Option ℚ)) (iMax : ℕ) :
    ∀ (fuel i : ℕ),
      (localMaximaLoop x iMax fuel i).Pairwise (· < ·) ∧
      ∀ m ∈ localMaximaLoop x iMax fuel i, i ≤ m ∧ m < iMax
  | 0, i => by
    constructor
    · exact List.Pairwise.nil
    · intro m hm
      simp [localMaximaLoop] at hm
  | fuel + 1, i => by
    unfold localMaximaLoop
    by_cases h1 : i < iMax
    · rw [if_pos h1]
      by_cases h2 : oLt (x.getD (i - 1) none) (x.getD i none) = true
      · rw [if_pos h2]
        set iAhead := plateauEnd x iMax (x.getD i none) x.length (i + 1) with hia
        have hge : i + 1 ≤ iAhead := plateauEnd_ge x iMax (x.getD i none) x.length (i + 1)
        have hle : iAhead ≤ iMax := plateauEnd_le x iMax (x.getD i none) x.length (i + 1) h1
        by_cases h3 : oLt (x.getD iAhead none) (x.getD i none) = true
        · rw [if_pos h3]
          have ih := localMaximaLoop_sorted x iMax fuel (iAhead + 1)
          constructor
          · rw [List.pairwise_cons]
            refine ⟨fun m hm => ?_, ih.1⟩
            have := (ih.2 m hm).1
            omega
          · intro m hm
            rcases List.mem_cons.mp hm with rfl | hm
            · omega
            · have := ih.2 m hm
              omega
        · rw [if_neg h3]
          have ih := localMaximaLoop_sorted x iMax fuel (i + 1)
          exact ⟨ih.1, fun m hm => by have := ih.2 m hm; omega⟩
      · rw [if_neg h2]
        have ih := localMaximaLoop_sorted x iMax fuel (i + 1)
        exact ⟨ih.1, fun m hm => by have := ih.2 m hm; omega⟩
    · rw [if_neg h1]
      exact ⟨List.Pairwise.nil, fun m hm => by simp at hm⟩

theorem localMaxima_sorted (x : List (Option ℚ)) :
    (localMaxima x).Pairwise (· < ·) :=
  (localMaximaLoop_sorted x (x.length - 1) x.length 1).1

theorem maskFilter_sublist {α : Type} :
    ∀ (xs : List α) (m : List Bool), List.Sublist (maskFilter xs m) xs
  | [], m => by cases m <;> exact List.Sublist.refl []
  | x :: xs, [] => List.nil_sublist _
  | x :: xs, b :: bs => by
    cases b
    · exact List.Sublist.cons x (maskFilter_sublist xs bs)
    · exact List.Sublist.cons₂ x (maskFilter_sublist xs bs)

theorem maskFilter_eq_filter_range_getD {α : Type} (d₀ : α) :
    ∀ (xs : List α) (mask : List Bool), mask.length = xs.length →
      maskFilter xs mask =
        ((List.range xs.length).filter (fun i => mask.getD i false)).map
          (fun i => xs.getD i d₀)
  | [], mask, h => by
    rcases mask with _ | _
    · rfl
    · simp at h
  | x :: xs, mask, h => by
    rcases mask with _ | ⟨b, bs⟩
    · simp at h
    · have hlen : bs.length = xs.length := by simpa using h
      have ih := maskFilter_eq_filter_range_getD d₀ xs bs hlen
      simp only [List.length_cons, List.range_succ_eq_map, List.filter_cons, List.getD_cons_zero]
      rw [List.filter_map]
      have hcomp : ((fun i => (b :: bs).getD i false) ∘ Nat.succ) = fun i => bs.getD i false := by
        funext i
        simp [Function.comp, List.getD_cons_succ]
      rw [hcomp]
      cases b
      · simp only [Bool.false_eq_true, if_false, maskFilter]
        rw [ih, List.map_map]
        congr 1
      · simp only [if_true, maskFilter, List.map_cons, List.getD_cons_zero, List.map_map]
        rw [ih]
        congr 1

/-- Entries of the keep mask only ever change from `true` to `false`. -/
theorem getD_set_false_true (keep : List Bool) (i b : ℕ)
    (h : (keep.set i false).getD b false = true) : keep.getD b false = true := by
  by_cases hib : i = b
  · subst hib
    by_cases hlen : i < keep.length
    · rw [List.getD_eq_getElem _ false (by simpa using hlen)] at h
      simp at h
    · rw [List.set_eq_of_length_le (by omega)] at h
      exact h
  · rwa [List.getD_eq_getElem?_getD, List.getElem?_set_ne hib,
      ← List.getD_eq_getElem?_getD] at h

theorem markLeft_true (peaks : List ℕ) (d pj : ℕ) :
    ∀ (k : ℕ) (keep : List Bool) (b : ℕ),
      (markLeft peaks d pj k keep).getD b false = true → keep.getD b false = true
  | 0, keep, b => by
    unfold markLeft
    by_cases h : pj - peaks.getD 0 0 < d
    · rw [if_pos h]
      exact getD_set_false_true keep 0 b
    · rw [if_neg h]
      exact id
  | k + 1, keep, b => by
    unfold markLeft
    by_cases h : pj - peaks.getD (k + 1) 0 < d
    · rw [if_pos h]
      intro hres
      exact getD_set_false_true keep (k + 1) b
        (markLeft_true peaks d pj k (keep.set (k + 1) false) b hres)
    · rw [if_neg h]
      exact id

theorem markRight_true (peaks : List ℕ) (d pj n : ℕ) :
    ∀ (fuel k : ℕ) (keep : List Bool) (b : ℕ),
      (markRight peaks d pj n fuel k keep).getD b false = true → keep.getD b false = true
  | 0, _, keep, b => id
  | fuel + 1, k, keep, b => by
    unfold markRight
    by_cases h : (decide (k < n) && decide (peaks.getD k 0 - pj < d)) = true
    · rw [if_pos h]
      intro hres
      exact getD_set_false_true keep k b
        (markRight_true peaks d pj n fuel (k + 1) (keep.set k false) b hres)
    · rw [if_neg h]
      exact id

theorem selectLoop_true (peaks : List ℕ) (d : ℕ) :
    ∀ (order : List ℕ) (keep : List Bool) (b : ℕ),
      (selectLoop peaks d order keep).getD b false = true → keep.getD b false = true
  | [], keep, b => id
  | j :: rest, keep, b => by
    unfold selectLoop
    by_cases h : keep.getD j false = true
    · rw [if_pos h]
      intro hres
      have h2 := selectLoop_true peaks d rest _ b hres
      have h1 := markRight_true peaks d (peaks.getD j 0) peaks.length peaks.length (j + 1) _ b h2
      rcases j with _ | j'
      · exact h1
      · exact markLeft_true peaks d (peaks.getD (j' + 1) 0) j' keep b h1
    · rw [if_neg h]
      exact selectLoop_true peaks d rest keep b

/-- A `false` entry stays `false` under the marking scans and the main loop. -/
theorem markRight_false (peaks : List ℕ) (d pj n : ℕ) :
    ∀ (fuel k : ℕ) (keep : List Bool) (b : ℕ),
      keep.getD b false = false → (markRight peaks d pj n fuel k keep).getD b false = false := by
  intro fuel k keep b hb
  by_cases h : (markRight peaks d pj n fuel k keep).getD b false = true
  · rw [markRight_true peaks d pj n fuel k keep b h] at hb
    exact absurd hb (by simp)
  · simpa using h

theorem selectLoop_false (peaks : List ℕ) (d : ℕ)
    (order : List ℕ) (keep : List Bool) (b : ℕ)
    (hb : keep.getD b false = false) :
    (selectLoop peaks d order keep).getD b false = false := by
  by_cases h : (selectLoop peaks d order keep).getD b false = true
  · rw [selectLoop_true peaks d order keep b h] at hb
    exact absurd hb (by simp)
  · simpa using h

theorem markLeft_falsePres (peaks : List ℕ) (d pj : ℕ) (k : ℕ) (keep : List Bool) (b : ℕ)
    (hb : keep.getD b false = false) :
    (markLeft peaks d pj k keep).getD b false = false := by
  by_cases h : (markLeft peaks d pj k keep).getD b false = true
  · rw [markLeft_true peaks d pj k keep b h] at hb
    exact absurd hb (by simp)
  · simpa using h

/-- Setting index `b` to `false` makes `getD b` false (also out of range,
where the default is `false`). -/
theorem getD_set_self_false (keep : List Bool) (b : ℕ) :
    (keep.set b false).getD b false = false := by
  by_cases hblen : b < keep.length
  · rw [List.getD_eq_getElem _ false (by simpa using hblen)]
    simp
  · rw [List.getD_eq_default]
    simp only [List.length_set]
    omega

/-- The right marking scan kills every kept position within `< d` of the
processed peak (using that `peaks` is sorted, so the scan stops exactly at the
first far-enough position). -/
theorem markRight_covers (peaks : List ℕ) (d pj : ℕ) (hd : 1 ≤ d)
    (hmono : ∀ a b, a ≤ b → b < peaks.length → peaks.getD a 0 ≤ peaks.getD b 0) :
    ∀ (fuel k : ℕ) (keep : List Bool) (b : ℕ),
      peaks.length - k ≤ fuel → k ≤ b → b < peaks.length →
      peaks.getD b 0 < pj + d →
      (markRight peaks d pj peaks.length fuel k keep).getD b false = false
  | 0, k, keep, b => by
    intro hfuel hkb hb hclose
    exfalso
    omega
  | fuel + 1, k, keep, b => by
    intro hfuel hkb hb hclose
    unfold markRight
    by_cases h : (decide (k < peaks.length) && decide (peaks.getD k 0 - pj < d)) = true
    · rw [if_pos h]
      by_cases heq : k = b
      · subst heq
        exact markRight_false peaks d pj peaks.length fuel (k + 1) _ k
          (getD_set_self_false keep k)
      · exact markRight_covers peaks d pj hd hmono fuel (k + 1) (keep.set k false) b
          (by omega) (by omega) hb hclose
    · rw [if_neg h]
      simp only [Bool.and_eq_true, decide_eq_true_eq, not_and, not_lt] at h
      exfalso
      by_cases hk : k < peaks.length
      · have hfar : d ≤ peaks.getD k 0 - pj := h hk
        have hmk : peaks.getD k 0 ≤ peaks.getD b 0 := hmono k b hkb hb
        omega
      · omega

/-- The left marking scan kills every kept position within `< d` below the
processed peak. -/
theorem markLeft_covers (peaks : List ℕ) (d pj : ℕ) (hd : 1 ≤ d)
    (hmono : ∀ a b, a ≤ b → b < peaks.length → peaks.getD a 0 ≤ peaks.getD b 0) :
    ∀ (k : ℕ) (keep : List Bool) (b : ℕ),
      b ≤ k → k < peaks.length →
      (∀ a, a ≤ k → a < peaks.length → peaks.getD a 0 ≤ pj) →
      pj < peaks.getD b 0 + d →
      (markLeft peaks d pj k keep).getD b false = false
  | 0, keep, b => by
    intro hbk hk hn hclose
    unfold markLeft
    have hb0 : b = 0 := by omega
    subst hb0
    by_cases h : pj - peaks.getD 0 0 < d
    · rw [if_pos h]
      exact getD_set_self_false keep 0
    · rw [if_neg h]
      exfalso
      have := hn 0 (Nat.le_refl 0) hk
      omega
  | k + 1, keep, b => by
    intro hbk hk hn hclose
    unfold markLeft
    by_cases h : pj - peaks.getD (k + 1) 0 < d
    · rw [if_pos h]
      by_cases heq : k + 1 = b
      · subst heq
        exact markLeft_falsePres peaks d pj k _ (k + 1) (getD_set_self_false keep (k + 1))
      · exact markLeft_covers peaks d pj hd hmono k (keep.set (k + 1) false) b
          (by omega) (by omega) (fun a ha hlen => hn a (by omega) hlen) hclose
    · rw [if_neg h]
      exfalso
      have hkb : peaks.getD b 0 ≤ peaks.getD (k + 1) 0 := hmono b (k + 1) hbk hk
      have hkpj : peaks.getD (k + 1) 0 ≤ pj := hn (k + 1) (Nat.le_refl _) hk
      omega

theorem markLeft_length (peaks : List ℕ) (d pj : ℕ) :
    ∀ (k : ℕ) (keep : List Bool), (markLeft peaks d pj k keep).length = keep.length
  | 0, keep => by
    unfold markLeft
    by_cases h : pj - peaks.getD 0 0 < d
    · rw [if_pos h, List.length_set]
    · rw [if_neg h]
  | k + 1, keep => by
    unfold markLeft
    by_cases h : pj - peaks.getD (k + 1) 0 < d
    · rw [if_pos h, markLeft_length peaks d pj k, List.length_set]
    · rw [if_neg h]

theorem markRight_length (peaks : List ℕ) (d pj n : ℕ) :
    ∀ (fuel k : ℕ) (keep : List Bool), (markRight peaks d pj n fuel k keep).length = keep.length
  | 0, _, keep => rfl
  | fuel + 1, k, keep => by
    unfold markRight
    by_cases h : (decide (k < n) && decide (peaks.getD k 0 - pj < d)) = true
    · rw [if_pos h, markRight_length peaks d pj n fuel (k + 1), List.length_set]
    · rw [if_neg h]

theorem selectLoop_length (peaks : List ℕ) (d : ℕ) :
    ∀ (order : List ℕ) (keep : List Bool), (selectLoop peaks d order keep).length = keep.length
  | [], keep => rfl
  | j :: rest, keep => by
    unfold selectLoop
    by_cases h : keep.getD j false = true
    · rw [if_pos h, selectLoop_length peaks d rest, markRight_length peaks d]
      rcases j with _ | j'
      · rfl
      · exact markLeft_length peaks d _ j' keep
    · rw [if_neg h]
      exact selectLoop_length peaks d rest keep

/-- Key property of `_select_by_peak_distance`: once the loop terminates, a
position that survived has erased every other position strictly closer than
`d` — processing order does not matter. -/
theorem selectLoop_conflict (peaks : List ℕ) (d : ℕ) (hd : 1 ≤ d)
    (hmono : ∀ a b, a ≤ b → b < peaks.length → peaks.getD a 0 ≤ peaks.getD b 0) :
    ∀ (order : List ℕ) (keep : List Bool) (j b : ℕ),
      j ∈ order → j < peaks.length → b < peaks.length → b ≠ j →
      peaks.getD b 0 < peaks.getD j 0 + d →
      peaks.getD j 0 < peaks.getD b 0 + d →
      (selectLoop peaks d order keep).getD j false = true →
      (selectLoop peaks d order keep).getD b false = false
  | [], keep, j, b => by
    intro hj
    exact absurd hj (List.not_mem_nil j)
  | o :: rest, keep, j, b => by
    intro hj hjlen hblen hbj hbc hjc hkept
    unfold selectLoop at hkept ⊢
    by_cases ho : keep.getD o false = true
    · rw [if_pos ho] at hkept ⊢
      by_cases hoj : o = j
      · subst hoj
        rcases Nat.lt_or_ge b o with hblt | hbge
        · obtain ⟨o', rfl⟩ : ∃ o', o = o' + 1 := ⟨o - 1, by omega⟩
          apply selectLoop_false
          apply markRight_false
          exact markLeft_covers peaks d _ hd hmono o' keep b (by omega) (by omega)
            (fun a ha hlen => hmono a (o' + 1) (by omega) hjlen) hjc
        · have hbgt : o < b := by omega
          apply selectLoop_false
          exact markRight_covers peaks d _ hd hmono peaks.length (o + 1) _ b
            (by omega) (by omega) hblen hbc
      · have hjrest : j ∈ rest := by
          rcases List.mem_cons.mp hj with h | h
          · exact absurd h.symm hoj
          · exact h
        exact selectLoop_conflict peaks d hd hmono rest _ j b hjrest hjlen hblen hbj
          hbc hjc hkept
    · rw [if_neg ho] at hkept ⊢
      by_cases hoj : o = j
      · subst hoj
        rw [selectLoop_true peaks d rest keep o hkept] at ho
        exact absurd rfl ho
      · have hjrest : j ∈ rest := by
          rcases List.mem_cons.mp hj with h | h
          · exact absurd h.symm hoj
          · exact h
        exact selectLoop_conflict peaks d hd hmono rest keep j b hjrest hjlen hblen hbj
          hbc hjc hkept

/-- The peaks that survive `_select_by_peak_distance` are pairwise at least
`d` apart (for sorted input peaks). -/
theorem selectByPeakDistance_kept_pairwise (peaks : List ℕ) (prio : List ℚ) (d : ℕ)
    (hd : 1 ≤ d) (hsorted : peaks.Pairwise (· < ·)) :
    (maskFilter peaks (selectByPeakDistance peaks prio d)).Pairwise
      (fun a b => a + d ≤ b) := by
  have hget := List.pairwise_iff_getElem.mp hsorted
  have hmono : ∀ a b, a ≤ b → b < peaks.length → peaks.getD a 0 ≤ peaks.getD b 0 := by
    intro a b hab hb
    rcases Nat.eq_or_lt_of_le hab with rfl | hlt
    · exact le_refl _
    · rw [List.getD_eq_getElem _ 0 (by omega), List.getD_eq_getElem _ 0 hb]
      exact (hget a b (by omega) hb hlt).le
  have hlen : (selectByPeakDistance peaks prio d).length = peaks.length := by
    unfold selectByPeakDistance
    rw [selectLoop_length, List.length_replicate]
  rw [maskFilter_eq_filter_range_getD 0 peaks _ hlen]
  apply List.pairwise_map.mpr
  have hpw : ((List.range peaks.length).filter
      (fun i => (selectByPeakDistance peaks prio d).getD i false)).Pairwise (· < ·) :=
    (List.pairwise_lt_range _).filter _
  apply hpw.imp_of_mem
  intro a b ha hb hab
  have hamem := List.mem_filter.mp ha
  have hbmem := List.mem_filter.mp hb
  have haR : a < peaks.length := List.mem_range.mp hamem.1
  have hbR : b < peaks.length := List.mem_range.mp hbmem.1
  have haK : (selectByPeakDistance peaks prio d).getD a false = true := hamem.2
  have hbK : (selectByPeakDistance peaks prio d).getD b false = true := hbmem.2
  by_contra hlt
  have hclose : peaks.getD b 0 < peaks.getD a 0 + d := by omega
  have hstrict : peaks.getD a 0 < peaks.getD b 0 := by
    rw [List.getD_eq_getElem _ 0 haR, List.getD_eq_getElem _ 0 hbR]
    exact hget a b haR hbR hab
  have horder : a ∈ (List.insertionSort (fun i j => prio.getD i 0 ≤ prio.getD j 0)
      (List.range peaks.length)).reverse := by
    rw [List.mem_reverse]
    exact (List.perm_insertionSort _ _).mem_iff.mpr (List.mem_range.mpr haR)
  have hfalse := selectLoop_conflict peaks d hd hmono
    ((List.insertionSort (fun i j => prio.getD i 0 ≤ prio.getD j 0)
      (List.range peaks.length)).reverse)
    (List.replicate peaks.length true) a b horder haR hbR (by omega) hclose
    (by omega) haK
  have hbK2 : (selectLoop peaks d
      ((List.insertionSort (fun i j => prio.getD i 0 ≤ prio.getD j 0)
        (List.range peaks.length)).reverse)
      (List.replicate peaks.length true)).getD b false = true := hbK
  rw [hfalse] at hbK2
  exact absurd hbK2 (by simp)

theorem pairwise_filterMap_of {α β : Type} (f : α → Option β) {R : β → β → Prop}
    {S : α → α → Prop} :
    ∀ (l : List α), l.Pairwise S →
      (∀ a a', S a a' → ∀ b, f a = some b → ∀ b', f a' = some b' → R b b') →
      (l.filterMap f).Pairwise R
  | [], _, _ => by simp
  | a :: l, hl, h => by
    rw [List.pairwise_cons] at hl
    rw [List.filterMap_cons]
    cases hfa : f a with
    | none => exact pairwise_filterMap_of f l hl.2 h
    | some b =>
      rw [List.pairwise_cons]
      refine ⟨?_, pairwise_filterMap_of f l hl.2 h⟩
      intro b' hb'
      obtain ⟨a', ha', hfa'⟩ := List.mem_filterMap.mp hb'
      exact h a a' (hl.1 a' ha') b hfa b' hfa'

theorem nanargmaxAux_lt :
    ∀ (xs : List (Option ℚ)) (i : ℕ) (acc : Option (ℚ × ℕ)),
      (∀ m b, acc = some (m, b) → b < i) →
      ∀ r, nanargmaxAux xs i acc = some r → r < i + xs.length
  | [], i, acc, hacc, r => by
    intro h
    unfold nanargmaxAux at h
    rcases acc with _ | ⟨m, b⟩
    · simp at h
    · simp only [Option.map_some'] at h
      have hbr : b = r := Option.some.inj h
      subst hbr
      have := hacc m b rfl
      simp only [List.length_nil]
      omega
  | none :: rest, i, acc, hacc, r => by
    intro h
    unfold nanargmaxAux at h
    have := nanargmaxAux_lt rest (i + 1) acc (fun m b hb => by
      have := hacc m b hb
      omega) r h
    simp only [List.length_cons]
    omega
  | some v :: rest, i, acc, hacc, r => by
    intro h
    unfold nanargmaxAux at h
    rcases acc with _ | ⟨m, b⟩
    all_goals dsimp only at h
    · have := nanargmaxAux_lt rest (i + 1) (some (v, i)) (fun m b hb => by
        cases hb
        omega) r h
      simp only [List.length_cons]
      omega
    · by_cases hmv : m < v
      · rw [if_pos hmv] at h
        have := nanargmaxAux_lt rest (i + 1) (some (v, i)) (fun m b hb => by
          cases hb
          omega) r h
        simp only [List.length_cons]
        omega
      · rw [if_neg hmv] at h
        have := nanargmaxAux_lt rest (i + 1) (some (m, b)) (fun m' b' hb => by
          cases hb
          have := hacc m b rfl
          omega) r h
        simp only [List.length_cons]
        omega

theorem nanargmaxList_lt (xs : List (Option ℚ)) (r : ℕ)
    (h : nanargmaxList xs = some r) : r < xs.length := by
  have := nanargmaxAux_lt xs 0 none (fun m b hb => by cases hb) r h
  omega

theorem workingSignal_length (sig : List ℚ) : (workingSignal sig).length = sig.length :=
  List.length_map _ _

theorem smoothedSignal_length (sig : List ℚ) (fs : ℚ) :
    (smoothedSignal sig fs).length = sig.length := by
  unfold smoothedSignal
  rw [List.length_map, List.length_range]

theorem refinePeaks_mem_lt (working : List (Option ℚ)) (w : ℕ) (cs : List ℕ) :
    ∀ r ∈ refinePeaks working w cs, r < working.length := by
  intro r hr
  unfold refinePeaks at hr
  obtain ⟨c, hc, hfc⟩ := List.mem_filterMap.mp hr
  dsimp only at hfc
  rcases hmap : nanargmaxList ((working.drop (c - w)).take
      (min working.length (c + w + 1) - (c - w))) with _ | k
  · rw [hmap] at hfc
    exact absurd hfc (by simp)
  · rw [hmap] at hfc
    simp only [Option.map_some'] at hfc
    have hr2 : c - w + k = r := Option.some.inj hfc
    have hklt := nanargmaxList_lt _ k hmap
    simp only [List.length_take, List.length_drop] at hklt
    omega

theorem refinePeaks_pairwise (working : List (Option ℚ)) (w ms : ℕ) (cs : List ℕ)
    (h2w : 2 * w < ms) (hpw : cs.Pairwise (fun a b => a + ms ≤ b)) :
    (refinePeaks working w cs).Pairwise (fun a b => a < b ∧ a + ms ≤ b + 2 * w) := by
  unfold refinePeaks
  apply pairwise_filterMap_of _ cs hpw
  intro a a' hS r hr r' hr'
  dsimp only at hr hr'
  rcases hmap : nanargmaxList ((working.drop (a - w)).take
      (min working.length (a + w + 1) - (a - w))) with _ | k
  · rw [hmap] at hr
    exact absurd hr (by simp)
  rcases hmap' : nanargmaxList ((working.drop (a' - w)).take
      (min working.length (a' + w + 1) - (a' - w))) with _ | k'
  · rw [hmap'] at hr'
    exact absurd hr' (by simp)
  rw [hmap] at hr
  rw [hmap'] at hr'
  simp only [Option.map_some'] at hr hr'
  have hre : a - w + k = r := Option.some.inj hr
  have hre' : a' - w + k' = r' := Option.some.inj hr'
  have hklt := nanargmaxList_lt _ k hmap
  simp only [List.length_take, List.length_drop] at hklt
  omega

theorem refinement_window_lt_min_samples (fs : ℚ) (hfs : 0 < fs)
    (hd : 1 ≤ pyInt ((2/5) * fs)) :
    2 * (pyInt (fs / 20)).toNat < (pyInt ((2/5) * fs)).toNat := by
  have h20 : (0:ℚ) ≤ fs / 20 := by positivity
  have h25 : (0:ℚ) ≤ 2/5 * fs := by positivity
  have hp1 : pyInt (fs / 20) = ⌊fs / 20⌋ := if_pos h20
  have hp2 : pyInt ((2/5) * fs) = ⌊(2/5) * fs⌋ := if_pos h25
  rw [hp1, hp2]
  rw [hp2] at hd
  have ht0 : (0:ℤ) ≤ ⌊fs / 20⌋ := Int.floor_nonneg.mpr h20
  rcases eq_or_lt_of_le ht0 with h0 | hpos
  · omega
  · have hfl : (⌊fs / 20⌋ : ℚ) ≤ fs / 20 := Int.floor_le _
    have hmul : ((8 * ⌊fs / 20⌋ : ℤ) : ℚ) ≤ (2/5) * fs := by
      push_cast
      linarith
    have h8 : 8 * ⌊fs / 20⌋ ≤ ⌊(2/5) * fs⌋ := Int.le_floor.mpr hmul
    omega

theorem findPeaksFiltered_pairwise (x : List (Option ℚ)) (hOK : ℚ → Bool) (d : ℕ)
    (pOK : ℚ → Bool) (wmin wmax : ℚ) (hd : 1 ≤ d) :
    (findPeaksFiltered x hOK d pOK wmin wmax).Pairwise (fun a b => a + d ≤ b) := by
  unfold findPeaksFiltered
  apply List.Pairwise.sublist (List.filter_sublist _)
  apply List.Pairwise.sublist (List.filter_sublist _)
  exact selectByPeakDistance_kept_pairwise _ _ d hd
    ((localMaxima_sorted x).filter _)

theorem attemptCands_pairwise (sig : List ℚ) (fs md k p : ℚ)
    (hd : 1 ≤ (pyInt (md * fs)).toNat) :
    (attemptCands sig fs md k p).Pairwise
      (fun a b => a + (pyInt (md * fs)).toNat ≤ b) := by
  unfold attemptCands
  exact findPeaksFiltered_pairwise _ _ _ _ _ _ hd

theorem postDetect_spacing (sig : List ℚ) (fs : ℚ) (cands : List ℕ)
    (hpw : cands.Pairwise (fun a b => a + (pyInt ((2/5) * fs)).toNat ≤ b))
    (h2w : 2 * (pyInt (fs / 20)).toNat < (pyInt ((2/5) * fs)).toNat) :
    (∀ q ∈ postDetect sig fs cands, q < sig.length) ∧
    (postDetect sig fs cands).Pairwise (fun a b =>
      a < b ∧ a + (pyInt ((2/5) * fs)).toNat ≤ b + 2 * (pyInt (fs / 20)).toNat) := by
  unfold postDetect
  by_cases hc : cands.length = 0
  · rw [if_pos hc]
    exact ⟨by simp, by simp⟩
  · rw [if_neg hc]
    have hbound : ∀ q ∈ refinePeaks (workingSignal sig) ((pyInt (fs / 20)).toNat) cands,
        q < sig.length := by
      intro q hq
      have := refinePeaks_mem_lt (workingSignal sig) ((pyInt (fs / 20)).toNat) cands q hq
      rwa [workingSignal_length] at this
    have hrefpw : (refinePeaks (workingSignal sig) ((pyInt (fs / 20)).toNat) cands).Pairwise
        (fun a b => a < b ∧ a + (pyInt ((2/5) * fs)).toNat ≤ b + 2 * (pyInt (fs / 20)).toNat) := by
      have := refinePeaks_pairwise (workingSignal sig) ((pyInt (fs / 20)).toNat)
        ((pyInt ((2/5) * fs)).toNat) cands h2w hpw
      exact this
    by_cases hlen3 : 2 < (refinePeaks (workingSignal sig) ((pyInt (fs / 20)).toNat) cands).length
    · rw [if_pos hlen3]
      have hsub : List.Sublist
          (outlierFilter (workingSignal sig)
            (refinePeaks (workingSignal sig) ((pyInt (fs / 20)).toNat) cands))
          (refinePeaks (workingSignal sig) ((pyInt (fs / 20)).toNat) cands) := by
        unfold outlierFilter
        exact List.filter_sublist _
      exact ⟨fun q hq => hbound q (hsub.mem hq), hrefpw.sublist hsub⟩
    · rw [if_neg hlen3]
      exact ⟨hbound, hrefpw⟩

set_option maxRecDepth 100000 in
/-- Amended claim C1: For every signal and positive sampling rate on which
`detect_r_peaks` (default parameters) returns, the returned peaks are strictly
increasing and are valid indices into the signal; candidate peaks before
refinement are pairwise at least `int(0.4*fs)` samples apart, but the ±50 ms
refinement can move each peak by up to `int(0.05*fs)` samples, so consecutive
returned peaks are only guaranteed at least
`int(0.4*fs) - 2*int(0.05*fs)` samples apart. -/
theorem c1_amended_peak_spacing (sig : List ℚ) (fs tf pf : ℚ) (out : List ℕ)
    (hfs : 0 < fs) (h : detect_r_peaks sig fs (2/5) tf pf = .ok out) :
    (∀ q ∈ out, q < sig.length) ∧
    out.Pairwise (fun a b =>
      a < b ∧ a + (pyInt ((2/5) * fs)).toNat ≤ b + 2 * (pyInt (fs / 20)).toNat) := by
  unfold detect_r_peaks at h
  by_cases h0 : sig.length = 0
  · rw [if_pos h0] at h
    exact absurd h (by simp)
  rw [if_neg h0] at h
  by_cases h1 : ((smoothedSignal sig fs).filterMap id).length = 0
  · rw [if_pos h1] at h
    have hout : out = [] := (Except.ok.inj h).symm
    subst hout
    exact ⟨by simp, by simp⟩
  rw [if_neg h1] at h
  by_cases h2 : pyInt ((2/5) * fs) < 1
  · rw [if_pos h2] at h
    exact absurd h (by simp)
  rw [if_neg h2] at h
  dsimp only at h
  have hout := (Except.ok.inj h).symm
  have hd1 : 1 ≤ (pyInt ((2/5) * fs)).toNat := by omega
  have h2w : 2 * (pyInt (fs / 20)).toNat < (pyInt ((2/5) * fs)).toNat :=
    refinement_window_lt_min_samples fs hfs (by omega)
  subst hout
  by_cases ha : (attemptCands sig fs (2/5) tf pf).length = 0
  · rw [if_pos ha]
    exact postDetect_spacing sig fs _ (attemptCands_pairwise sig fs (2/5) _ _ hd1) h2w
  · rw [if_neg ha]
    exact postDetect_spacing sig fs _ (attemptCands_pairwise sig fs (2/5) _ _ hd1) h2w

set_option maxRecDepth 100000 in
/-- Witness for the amended C1 at a constant signal (empty peak set) — the
hypotheses are discharged at `fs = 100`. -/
theorem c1_amended_peak_spacing_witness :
    (∀ q ∈ ([] : List ℕ), q < ([5, 5, 5] : List ℚ).length) ∧
    ([] : List ℕ).Pairwise (fun a b =>
      a < b ∧ a + (pyInt ((2/5 : ℚ) * 100)).toNat ≤ b + 2 * (pyInt ((100 : ℚ) / 20)).toNat) :=
  c1_amended_peak_spacing [5, 5, 5] 100 (3/2) 1 [] (by norm_num) rfl

